import Mathlib

/-!
Verification of the Orchestration & Coordination subsystem of the
agent-infrastructure-platform repository: the per-agent circuit breaker
(`orchestration/circuit_breaker.py`), the dependency-graph task scheduler
(`orchestration/orchestrator.py`) and the swarm coordinator
(`orchestration/swarm.py`), shallowly embedded as pure Lean functions.

Modelling conventions:
- Python `dict` (insertion-ordered) is an association list; assignment to an
  existing key updates in place (keeping the key's position), assignment to a
  fresh key appends at the end.
- Wall-clock reads (`time.time()`, event-loop time) become an explicit
  `now : ℚ` argument threaded through the calls that read the clock.
- An agent invocation is external; it is modelled by a `behavior` function
  giving, per agent and task, either an exception/timeout or a returned task
  whose status may or may not be COMPLETED.  Opaque payloads (`output_data`,
  `input_data`, metadata) are not modelled; no verified property reads them.
- `asyncio.gather` of one batch is linearised: the batch's tasks run
  sequentially, then their results are processed in batch order, exactly as
  the source's result-processing loop does.
-/

namespace AIP

/-! ### Insertion-ordered dictionaries as association lists -/

/-- `d[k] = v` on a Python dict: update in place if the key exists
(keeping its position), else append at the end. -/
def dictInsert {α : Type} (k : String) (v : α) : List (String × α) → List (String × α)
  | [] => [(k, v)]
  | (k', v') :: rest =>
      if k' = k then (k', v) :: rest else (k', v') :: dictInsert k v rest

/-- `d.get(k)` on a Python dict. -/
def dictGet {α : Type} (k : String) : List (String × α) → Option α
  | [] => none
  | (k', v) :: rest => if k' = k then some v else dictGet k rest

/-- Keys of a dict, in insertion order. -/
def dictKeys {α : Type} (m : List (String × α)) : List String := m.map Prod.fst

/-! ### CircuitBreaker (`orchestration/circuit_breaker.py`) -/

/-- `CircuitState` enum. -/
inductive CircuitState where
  | CLOSED
  | OPEN
  | HALF_OPEN
deriving DecidableEq, Repr

/-- `CircuitBreaker` configuration and mutable state (`__init__`).
Times are rationals standing in for Python floats. -/
structure CircuitBreaker where
  failure_threshold : Nat := 5
  recovery_timeout : ℚ := 30
  half_open_max_calls : Nat := 3
  success_threshold : Nat := 2
  state : CircuitState := .CLOSED
  failure_count : Nat := 0
  success_count : Nat := 0
  last_failure_time : Option ℚ := none
  half_open_calls : Nat := 0
deriving DecidableEq, Repr

/-- `CircuitBreaker.__init__` with its four parameters; all mutable state
starts at the constructor's values (CLOSED, zero counters, no failure
time). -/
def mkCircuitBreaker (failure_threshold : Nat) (recovery_timeout : ℚ)
    (half_open_max_calls success_threshold : Nat) : CircuitBreaker :=
  { failure_threshold := failure_threshold, recovery_timeout := recovery_timeout,
    half_open_max_calls := half_open_max_calls, success_threshold := success_threshold }

/-- `CircuitBreaker.can_execute`, with the wall-clock read `time.time()`
passed in as `now`.  Returns the boolean answer and the updated breaker
(the Python method mutates `self`). -/
def can_execute (cb : CircuitBreaker) (now : ℚ) : Bool × CircuitBreaker :=
  match cb.state with
  | .CLOSED => (true, cb)
  | .OPEN =>
      match cb.last_failure_time with
      | some t =>
          if now - t ≥ cb.recovery_timeout then
            (true, { cb with state := .HALF_OPEN, half_open_calls := 0 })
          else
            (false, cb)
      | none => (false, cb)
  | .HALF_OPEN =>
      if cb.half_open_calls < cb.half_open_max_calls then
        (true, { cb with half_open_calls := cb.half_open_calls + 1 })
      else
        (false, cb)

/-- `CircuitBreaker.record_success`. -/
def record_success (cb : CircuitBreaker) : CircuitBreaker :=
  match cb.state with
  | .HALF_OPEN =>
      let cb1 := { cb with success_count := cb.success_count + 1 }
      if cb1.success_count ≥ cb1.success_threshold then
        { cb1 with state := .CLOSED, failure_count := 0, success_count := 0,
                   half_open_calls := 0 }
      else
        cb1
  | .CLOSED =>
      if cb.failure_count > 0 then { cb with failure_count := 0 } else cb
  | .OPEN => cb

/-- `CircuitBreaker.record_failure`, with `time.time()` passed as `now`. -/
def record_failure (cb : CircuitBreaker) (now : ℚ) : CircuitBreaker :=
  let cb1 := { cb with failure_count := cb.failure_count + 1,
                       last_failure_time := some now }
  match cb1.state with
  | .HALF_OPEN =>
      { cb1 with state := .OPEN, half_open_calls := 0, success_count := 0 }
  | .CLOSED =>
      if cb1.failure_count ≥ cb1.failure_threshold then
        { cb1 with state := .OPEN }
      else
        cb1
  | .OPEN => cb1

/-- Repeated `can_execute` calls at a fixed time, returning the number of
calls that answered `true` and the final breaker. -/
def iterate_can_execute (cb : CircuitBreaker) (now : ℚ) : Nat → Nat × CircuitBreaker
  | 0 => (0, cb)
  | n + 1 =>
      let r := can_execute cb now
      let rest := iterate_can_execute r.2 now n
      ((if r.1 then 1 else 0) + rest.1, rest.2)

/-- A sequence of `record_failure` calls, one per listed timestamp. -/
def record_failures (cb : CircuitBreaker) : List ℚ → CircuitBreaker
  | [] => cb
  | t :: ts => record_failures (record_failure cb t) ts

/-- `n` consecutive `record_success` calls. -/
def record_successes (cb : CircuitBreaker) : Nat → CircuitBreaker
  | 0 => cb
  | n + 1 => record_successes (record_success cb) n

/-! ### Orchestrator (`orchestration/orchestrator.py`) -/

abbrev AgentID := String

/-- A `Capability` as consumed by the orchestrator: only `name` is ever read
(`[c.name for c in task.required_capabilities]`); the remaining fields are
carried for fidelity. -/
structure Capability where
  name : String
  category : String := "tool"
  version : String := "1.0.0"
deriving DecidableEq, Repr

/-- A `Task` restricted to the fields the orchestrator reads.  The opaque
payloads (`input_data`, `output_data`) and timestamps are not modelled. -/
structure Task where
  id : String
  name : String := ""
  goal : String := ""
  required_capabilities : List Capability := []
deriving DecidableEq, Repr

/-- `TaskPlan`: tasks plus the dependency map `task_id -> dependencies`. -/
structure TaskPlan where
  id : String := ""
  name : String := ""
  description : String := ""
  tasks : List Task := []
  dependencies : List (String × List String) := []
deriving DecidableEq, Repr

/-- `ExecutionResult`.  The opaque `output` payload is not modelled; no
verified property reads it. -/
structure ExecutionResult where
  task_id : String
  success : Bool
  error : Option String := none
  duration_ms : ℚ := 0
  retry_count : Nat := 0
deriving DecidableEq, Repr

/-- The observable outcome of invoking one agent on one task: an exception
(or timeout — `asyncio.TimeoutError` is an `Exception` and is caught by the
same handler), or a normal return whose task status may or may not be
`COMPLETED` (`success = result_task.status == TaskStatus.COMPLETED`). -/
inductive AgentOutcome where
  | exc
  | ok (completed : Bool)
deriving DecidableEq, Repr

/-- Agent behaviour: what invoking a given agent on a given task id does.
This stands for the external `agent.execute_task` call. -/
def AgentBehavior : Type := AgentID → String → AgentOutcome

/-- The `Orchestrator`'s registry state.  `_agents` maps ids to opaque agent
objects and is represented by its key set inside `agent_capabilities`;
agent invocation is supplied separately as an `AgentBehavior`. -/
structure Orchestrator where
  max_concurrent_tasks : Nat := 100
  default_timeout : ℚ := 300
  enable_circuit_breaker : Bool := true
  agent_capabilities : List (AgentID × List String) := []
  agent_health : List (AgentID × Bool) := []
  circuit_breakers : List (AgentID × CircuitBreaker) := []
deriving DecidableEq, Repr

/-- `Orchestrator.register_agent` (the agent's `id` attribute passed
explicitly).  Creates a brand-new `CircuitBreaker()` for the id whenever
circuit breakers are enabled. -/
def register_agent (o : Orchestrator) (agent_id : AgentID) (capabilities : List String) :
    Orchestrator :=
  { o with
    agent_capabilities := dictInsert agent_id capabilities o.agent_capabilities,
    agent_health := dictInsert agent_id true o.agent_health,
    circuit_breakers :=
      if o.enable_circuit_breaker then
        dictInsert agent_id {} o.circuit_breakers
      else
        o.circuit_breakers }

/-- The loop body of `Orchestrator.find_agents_for_task`, iterating the
`_agent_capabilities` items and threading the (mutated) breaker dict:
`can_execute` may change a breaker's state. -/
def find_agents_go (health : List (AgentID × Bool)) (enable : Bool)
    (required_capabilities : List String) (now : ℚ)
    (cbs : List (AgentID × CircuitBreaker)) :
    List (AgentID × List String) → List AgentID × List (AgentID × CircuitBreaker)
  | [] => ([], cbs)
  | (agent_id, capabilities) :: rest =>
      if ¬ required_capabilities.all (fun cap => capabilities.contains cap) then
        find_agents_go health enable required_capabilities now cbs rest
      else if (dictGet agent_id health).getD true = false then
        find_agents_go health enable required_capabilities now cbs rest
      else if enable then
        match dictGet agent_id cbs with
        | some cb =>
            let r := can_execute cb now
            let cbs1 := dictInsert agent_id r.2 cbs
            if r.1 then
              let p := find_agents_go health enable required_capabilities now cbs1 rest
              (agent_id :: p.1, p.2)
            else
              find_agents_go health enable required_capabilities now cbs1 rest
        | none =>
            let p := find_agents_go health enable required_capabilities now cbs rest
            (agent_id :: p.1, p.2)
      else
        let p := find_agents_go health enable required_capabilities now cbs rest
        (agent_id :: p.1, p.2)

/-- `Orchestrator.find_agents_for_task`.  Returns the candidate list and the
updated breaker dict (`can_execute` can mutate breakers). -/
def find_agents_for_task (o : Orchestrator) (required_capabilities : List String)
    (now : ℚ) : List AgentID × List (AgentID × CircuitBreaker) :=
  find_agents_go o.agent_health o.enable_circuit_breaker required_capabilities now
    o.circuit_breakers o.agent_capabilities

/-- The candidate loop of `Orchestrator._execute_task` ("try agents until
one succeeds").  Per candidate: re-check `can_execute`; skipped candidates
record nothing; an exception/timeout records a failure and moves on; a
normal return records a success and produces the result
(`success = (status == COMPLETED)`).  `none` means all candidates were
exhausted.  `dur` is the elapsed duration the clock would report. -/
def try_candidates (behavior : AgentBehavior) (task_id : String) (now dur : ℚ) :
    List AgentID → List (AgentID × CircuitBreaker) →
    Option ExecutionResult × List (AgentID × CircuitBreaker)
  | [], cbs => (none, cbs)
  | agent_id :: rest, cbs =>
      match dictGet agent_id cbs with
      | some cb =>
          let r := can_execute cb now
          if r.1 = false then
            try_candidates behavior task_id now dur rest (dictInsert agent_id r.2 cbs)
          else
            match behavior agent_id task_id with
            | .exc =>
                try_candidates behavior task_id now dur rest
                  (dictInsert agent_id (record_failure r.2 now) cbs)
            | .ok completed =>
                (some { task_id := task_id, success := completed, duration_ms := dur },
                 dictInsert agent_id (record_success r.2) cbs)
      | none =>
          match behavior agent_id task_id with
          | .exc => try_candidates behavior task_id now dur rest cbs
          | .ok completed =>
              (some { task_id := task_id, success := completed, duration_ms := dur }, cbs)

/-- `Orchestrator._execute_task`: find candidates, fail with
"No agent found ..." if none, otherwise fall back across candidates and fail
with "All agents failed to execute task" (retry_count = number of
candidates) when all are exhausted. -/
def execute_task_m (o : Orchestrator) (behavior : AgentBehavior) (task : Task)
    (now dur : ℚ) : ExecutionResult × List (AgentID × CircuitBreaker) :=
  let required_caps := task.required_capabilities.map (fun c => c.name)
  let f := find_agents_for_task o required_caps now
  if f.1.isEmpty then
    ({ task_id := task.id, success := false,
       error := some ("No agent found for capabilities: " ++
                      String.intercalate ", " required_caps) }, f.2)
  else
    match try_candidates behavior task.id now dur f.1 f.2 with
    | (some res, cbs) => (res, cbs)
    | (none, cbs) =>
        ({ task_id := task.id, success := false,
           error := some "All agents failed to execute task",
           duration_ms := dur, retry_count := f.1.length }, cbs)

/-! ### `Orchestrator.execute` — the round-based scheduling loop -/

/-- Append `v` to the list dict entry `k`, creating it first when absent:
`if dep not in dependents: dependents[dep] = []` then `.append(task_id)`. -/
def dictAppend (k : String) (v : String) (m : List (String × List String)) :
    List (String × List String) :=
  match dictGet k m with
  | some l => dictInsert k (l ++ [v]) m
  | none => m ++ [(k, [v])]

/-- Build `dependents: task_id -> tasks that depend on it` from the plan's
dependency map. -/
def build_dependents (dependencies : List (String × List String)) :
    List (String × List String) :=
  dependencies.foldl
    (fun m p => p.2.foldl (fun m2 dep => dictAppend dep p.1 m2) m) []

/-- Build `pending_deps: task.id -> set(dependencies)` over the plan's task
list; the Python `set(...)` is a duplicate-free list, membership and
emptiness being the only observations. -/
def build_pending_deps (plan : TaskPlan) : List (String × List String) :=
  plan.tasks.foldl
    (fun m t => dictInsert t.id ((dictGet t.id plan.dependencies).getD []).dedup m) []

/-- Add an id to a Python `set` modelled as a duplicate-free list. -/
def insertUnique (l : List String) (x : String) : List String :=
  if l.contains x then l else x :: l

/-- `pending_deps[dependent].remove(task_id)` guarded by membership, applied
only when the dependent has an entry. -/
def removeDep (pending : List (String × List String)) (dependent task_id : String) :
    List (String × List String) :=
  match dictGet dependent pending with
  | some deps =>
      if deps.contains task_id then
        dictInsert dependent (deps.filter (fun d => d ≠ task_id)) pending
      else
        pending
  | none => pending

/-- Mutable state of one `execute` call: the result map, the `completed` and
`failed` id sets, the pending-dependency map, and the breaker dict (the only
orchestrator state the loop mutates). -/
structure ExecState where
  results : List (String × ExecutionResult)
  completed : List String
  failed : List String
  pending_deps : List (String × List String)
  cbs : List (AgentID × CircuitBreaker)
deriving DecidableEq, Repr

/-- Result processing for one (task, result) pair of a batch: store the
result, add the id to `completed` or `failed`, and unlock the task in every
dependent's pending set — the source performs this unlock unconditionally,
for failed results exactly as for successes. -/
def process_one (dependents : List (String × List String)) (st : ExecState)
    (t : Task) (res : ExecutionResult) : ExecState :=
  { st with
    results := dictInsert t.id res st.results,
    completed := if res.success then insertUnique st.completed t.id else st.completed,
    failed := if res.success then st.failed else insertUnique st.failed t.id,
    pending_deps :=
      ((dictGet t.id dependents).getD []).foldl
        (fun pd dep => removeDep pd dep t.id) st.pending_deps }

/-- Run one batch: invoke `_execute_task` for each task (the concurrent
`asyncio.gather` linearised in batch order), then process every result. -/
def run_batch (o : Orchestrator) (behavior : AgentBehavior)
    (dependents : List (String × List String)) (now dur : ℚ) :
    List Task → ExecState → ExecState
  | [], st => st
  | t :: ts, st =>
      let r := execute_task_m { o with circuit_breakers := st.cbs } behavior t now dur
      run_batch o behavior dependents now dur ts
        (process_one dependents { st with cbs := r.2 } t r.1)

/-- The ready set of a round: unterminated tasks with no pending
dependencies. -/
def ready_tasks (tasks : List Task) (st : ExecState) : List Task :=
  tasks.filter (fun t =>
    ¬ st.completed.contains t.id ∧ ¬ st.failed.contains t.id ∧
    (dictGet t.id st.pending_deps).getD [] = [])

/-- One step of the deadlock branch: mark a remaining task failed with a
"Dependency deadlock" result. -/
def mark_one (s : ExecState) (t : Task) : ExecState :=
  { s with
    failed := insertUnique s.failed t.id,
    results := dictInsert t.id
      { task_id := t.id, success := false, error := some "Dependency deadlock" }
      s.results }

/-- The deadlock branch: every unterminated task is marked failed with a
"Dependency deadlock" result. -/
def mark_deadlock (tasks : List Task) (st : ExecState) : ExecState :=
  (tasks.filter (fun t =>
      ¬ st.completed.contains t.id ∧ ¬ st.failed.contains t.id)).foldl mark_one st

/-- The `while len(completed) + len(failed) < len(plan.tasks)` loop.  `fuel`
bounds the number of loop-body executions; `none` means the bound was hit
(the termination theorems show `tasks.length + 1` is always enough). -/
def execute_loop (o : Orchestrator) (behavior : AgentBehavior)
    (tasks : List Task) (dependents : List (String × List String)) (now dur : ℚ) :
    Nat → ExecState → Option ExecState
  | fuel, st =>
      if st.completed.length + st.failed.length ≥ tasks.length then
        some st
      else
        match fuel with
        | 0 => none
        | fuel' + 1 =>
            let ready := ready_tasks tasks st
            if ready.isEmpty then
              some (mark_deadlock tasks st)
            else
              execute_loop o behavior tasks dependents now dur fuel'
                (run_batch o behavior dependents now dur
                  (ready.take o.max_concurrent_tasks) st)

/-- `Orchestrator.execute`: builds the dependency graph and runs the round
loop with fuel `tasks.length + 1` (shown sufficient by the termination
theorems). -/
def execute (o : Orchestrator) (behavior : AgentBehavior) (plan : TaskPlan)
    (now dur : ℚ) : Option ExecState :=
  execute_loop o behavior plan.tasks (build_dependents plan.dependencies) now dur
    (plan.tasks.length + 1)
    { results := [], completed := [], failed := [],
      pending_deps := build_pending_deps plan, cbs := o.circuit_breakers }

/-- `len(completed) + len(failed)` — the loop's progress measure. -/
def termCount (st : ExecState) : Nat := st.completed.length + st.failed.length

/-- A task id that has reached a terminal outcome (COMPLETED or FAILED) in
this run. -/
def isTerminal (st : ExecState) (i : String) : Prop :=
  i ∈ st.completed ∨ i ∈ st.failed

/-- Invariant of the scheduling loop: the terminal id lists are jointly
duplicate-free, every terminal id is a plan task id, and every terminal id
has a stored result. -/
def loop_inv (tasks : List Task) (st : ExecState) : Prop :=
  (st.completed ++ st.failed).Nodup ∧
  (∀ i ∈ st.completed ++ st.failed, i ∈ tasks.map Task.id) ∧
  (∀ i, isTerminal st i → (dictGet i st.results).isSome = true)

/-- Bounded reachability along dependency edges (id `a` depends — directly
or through at most `n` edges — on id `b`). -/
def reachesDep (deps : List (String × List String)) : Nat → String → String → Bool
  | 0, _, _ => false
  | n + 1, a, b =>
      ((dictGet a deps).getD []).any (fun d => d = b || reachesDep deps n d b)

/-- The dependency map is acyclic over the given ids. -/
def depsDAG (deps : List (String × List String)) (ids : List String) : Bool :=
  ids.all (fun i => ! reachesDep deps ids.length i i)

/-- Every id the dependency map mentions is an existing task id. -/
def depsValid (deps : List (String × List String)) (ids : List String) : Bool :=
  deps.all (fun p => ids.contains p.1 && p.2.all (fun d => ids.contains d))

/-! ### SwarmCoordinator (`orchestration/swarm.py`) -/

/-- `SwarmConfig`. -/
structure SwarmConfig where
  name : String := ""
  coordinator_id : AgentID := ""
  consensus_type : String := "majority"
  vote_timeout : ℚ := 30
  min_agents : Nat := 1
  max_agents : Nat := 100
  allocation_strategy : String := "round_robin"
deriving DecidableEq, Repr

/-- A swarm member's record (metadata and join time are opaque and never
read by verified properties). -/
structure SwarmMember where
  capabilities : List String := []
  task_count : Nat := 0
deriving DecidableEq, Repr

/-- `SwarmCoordinator` state relevant to consensus and allocation. -/
structure SwarmCoordinator where
  config : SwarmConfig
  members : List (AgentID × SwarmMember) := []
  round_robin_index : Nat := 0
  allocated_tasks : List (String × AgentID) := []
deriving DecidableEq, Repr

/-- The outcome dict of `SwarmCoordinator.propose`. -/
structure ProposeResult where
  consensus : Bool
  yes_votes : Nat
  no_votes : Nat
  total_members : Nat
deriving DecidableEq, Repr

/-- `SwarmCoordinator.propose`, with the voting window modelled by the list
of `(voter, vote)` pairs submitted through `vote()` while the proposal was
open; `vote()` drops submissions from non-members, and the tally reads the
member count at tally time.  The `majority` rule is the source's
`yes_votes > len(self._members) / 2` (true division). -/
def propose (s : SwarmCoordinator) (incoming : List (AgentID × Bool)) : ProposeResult :=
  let votes := incoming.filter (fun v => (dictGet v.1 s.members).isSome)
  let yes_votes := (votes.filter (fun v => v.2)).length
  let no_votes := votes.length - yes_votes
  let consensus :=
    if s.config.consensus_type = "unanimous" then
      yes_votes = s.members.length ∧ no_votes = 0
    else if s.config.consensus_type = "majority" then
      (yes_votes : ℚ) > (s.members.length : ℚ) / 2
    else if s.config.consensus_type = "leader" then
      yes_votes ≥ 1
    else
      False
  { consensus := decide consensus, yes_votes := yes_votes, no_votes := no_votes,
    total_members := s.members.length }

/-- Increment a member's `task_count`. -/
def bump_task_count (members : List (AgentID × SwarmMember)) (agent_id : AgentID) :
    List (AgentID × SwarmMember) :=
  members.map (fun p =>
    if p.1 = agent_id then (p.1, { p.2 with task_count := p.2.task_count + 1 }) else p)

/-- `SwarmCoordinator.distribute_task`.  `if agent_id:` is Python truthiness:
`None` and the empty string both skip the bookkeeping. -/
def distribute_task (s : SwarmCoordinator) (task : Task) :
    Option AgentID × SwarmCoordinator :=
  if s.members.isEmpty then
    (none, s)
  else
    let pick : Option AgentID × Nat :=
      if s.config.allocation_strategy = "round_robin" then
        (some ((dictKeys s.members).getD (s.round_robin_index % s.members.length) ""),
         s.round_robin_index + 1)
      else if s.config.allocation_strategy = "capability" then
        let required := task.required_capabilities.map (fun c => c.name)
        ((s.members.find? (fun p =>
            required.all (fun cap => p.2.capabilities.contains cap))).map Prod.fst,
         s.round_robin_index)
      else if s.config.allocation_strategy = "bid" then
        ((dictKeys s.members).head?, s.round_robin_index)
      else
        (none, s.round_robin_index)
    let s1 := { s with round_robin_index := pick.2 }
    match pick.1 with
    | some aid =>
        if aid ≠ "" then
          (some aid,
           { s1 with members := bump_task_count s1.members aid,
                     allocated_tasks := dictInsert task.id aid s1.allocated_tasks })
        else
          (some aid, s1)
    | none => (none, s1)

/-- Sequential `distribute_task` calls, one per listed task. -/
def distribute_seq (s : SwarmCoordinator) :
    List Task → List (Option AgentID) × SwarmCoordinator
  | [] => ([], s)
  | t :: ts =>
      let r := distribute_task s t
      let p := distribute_seq r.2 ts
      (r.1 :: p.1, p.2)

/-! ### Concrete sample data used by witnesses and counterexamples -/

/-- Registry with two healthy agents providing capability `x`, fresh
breakers. -/
def twoAgentOrch : Orchestrator :=
  { agent_capabilities := [("a1", ["x"]), ("a2", ["x", "y"])],
    agent_health := [("a1", true), ("a2", true)],
    circuit_breakers := [("a1", {}), ("a2", {})] }

/-- A swarm with the default config (`majority`, `round_robin`) and three
members `m0, m1, m2`. -/
def threeMemberSwarm : SwarmCoordinator :=
  { config := { name := "s", coordinator_id := "m0" },
    members := [("m0", {}), ("m1", {}), ("m2", {})] }

/-- A task with no required capabilities. -/
def taskT : Task := { id := "t" }

/-- A task requiring capability `x`. -/
def taskX7 : Task := { id := "t7", required_capabilities := [{ name := "x" }] }

/-- An agent pool in which every invocation raises. -/
def behaviorExc : AgentBehavior := fun _ _ => .exc

/-- An orchestrator with no registered agents, default settings. -/
def emptyOrch : Orchestrator := {}

/-- A plan whose single task `X` depends on an id that names no task. -/
def planX : TaskPlan :=
  { tasks := [{ id := "X" }], dependencies := [("X", ["missing"])] }

/-- A registry with one healthy agent with no declared capabilities and a
fresh breaker. -/
def oneAgentOrch : Orchestrator :=
  { agent_capabilities := [("a1", [])], agent_health := [("a1", true)],
    circuit_breakers := [("a1", {})] }

def taskA : Task := { id := "A" }

def taskB : Task := { id := "B" }

/-- The chain plan A → B (B depends on A). -/
def planAB : TaskPlan := { tasks := [taskA, taskB], dependencies := [("B", ["A"])] }

/-- Agent behaviour that fails task `A` (returned status not COMPLETED) and
completes every other task. -/
def behaviorFailA : AgentBehavior :=
  fun _ tid => if tid = "A" then .ok false else .ok true

/-- The state at the start of an `execute` call with no breakers. -/
def emptyExecState : ExecState :=
  { results := [], completed := [], failed := [], pending_deps := [], cbs := [] }

/-- A failure result for task `t`. -/
def resT : ExecutionResult := { task_id := "t", success := false }

/-! ## Theorems -/

theorem dictGet_insert_self {α : Type} (k : String) (v : α) (m : List (String × α)) :
    dictGet k (dictInsert k v m) = some v := by
  induction m with
  | nil => simp [dictInsert, dictGet]
  | cons p rest ih =>
      by_cases h : p.1 = k
      · simp [dictInsert, dictGet, h]
      · simp [dictInsert, dictGet, h, ih]

theorem dictGet_insert_ne {α : Type} (k k' : String) (v : α) (m : List (String × α))
    (hk : k' ≠ k) : dictGet k' (dictInsert k v m) = dictGet k' m := by
  induction m with
  | nil => simp [dictInsert, dictGet, hk, Ne.symm hk]
  | cons p rest ih =>
      by_cases h : p.1 = k
      · subst h
        simp [dictInsert, dictGet, Ne.symm hk]
      · by_cases h2 : p.1 = k'
        · simp [dictInsert, dictGet, h, h2, hk]
        · simp [dictInsert, dictGet, h, h2, ih]

/-- Re-inserting the value a key already holds leaves the dict unchanged. -/
theorem dictInsert_get_self {α : Type} (k : String) (v : α) (m : List (String × α))
    (h : dictGet k m = some v) : dictInsert k v m = m := by
  induction m with
  | nil => simp [dictGet] at h
  | cons p rest ih =>
      by_cases hk : p.1 = k
      · simp [dictGet, hk] at h
        cases p
        simp_all [dictInsert]
      · simp [dictGet, hk] at h
        simp [dictInsert, hk, ih h]

theorem dictGet_mem {α : Type} {k : String} {v : α} {m : List (String × α)}
    (h : dictGet k m = some v) : (k, v) ∈ m := by
  induction m with
  | nil => simp [dictGet] at h
  | cons p rest ih =>
      by_cases hk : p.1 = k
      · simp [dictGet, hk] at h
        cases p
        simp_all
      · simp [dictGet, hk] at h
        exact List.mem_cons_of_mem _ (ih h)

theorem dictInsert_insert {α : Type} (k : String) (v v' : α) (m : List (String × α)) :
    dictInsert k v' (dictInsert k v m) = dictInsert k v' m := by
  induction m with
  | nil => simp [dictInsert]
  | cons p rest ih =>
      by_cases hk : p.1 = k
      · simp [dictInsert, hk]
      · simp [dictInsert, hk, ih]

theorem dictKeys_insert {α : Type} (k : String) (v : α) {v' : α} (m : List (String × α))
    (h : dictGet k m = some v') : dictKeys (dictInsert k v m) = dictKeys m := by
  induction m with
  | nil => simp [dictGet] at h
  | cons p rest ih =>
      by_cases hk : p.1 = k
      · simp [dictInsert, hk, dictKeys]
      · simp [dictGet, hk] at h
        simp [dictInsert, hk, dictKeys] at ih ⊢
        exact ih h

theorem can_execute_closed (cb : CircuitBreaker) (now : ℚ) (h : cb.state = .CLOSED) :
    can_execute cb now = (true, cb) := by
  simp [can_execute, h]

/-! ### C3 — the HALF_OPEN call allowance -/

theorem iterate_can_execute_half_open (now : ℚ) :
    ∀ (n : Nat) (cb : CircuitBreaker), cb.state = .HALF_OPEN →
      (iterate_can_execute cb now n).1 =
        min n (cb.half_open_max_calls - cb.half_open_calls) ∧
      (iterate_can_execute cb now n).2.state = .HALF_OPEN ∧
      (iterate_can_execute cb now n).2.half_open_max_calls = cb.half_open_max_calls := by
  intro n
  induction n with
  | zero => intro cb h; simp [iterate_can_execute, h]
  | succ n ih =>
      intro cb h
      by_cases hlt : cb.half_open_calls < cb.half_open_max_calls
      · have hce : can_execute cb now =
            (true, { cb with half_open_calls := cb.half_open_calls + 1 }) := by
          simp [can_execute, h, hlt]
        have ih2 := ih { cb with half_open_calls := cb.half_open_calls + 1 } (by simp [h])
        refine ⟨?_, ?_, ?_⟩ <;>
          simp only [iterate_can_execute, hce, ih2.1, ih2.2.1, ih2.2.2] <;>
          simp <;> omega
      · have hce : can_execute cb now = (false, cb) := by
          simp [can_execute, h, hlt]
        have ih2 := ih cb h
        refine ⟨?_, ?_, ?_⟩ <;>
          simp only [iterate_can_execute, hce, ih2.1, ih2.2.1, ih2.2.2] <;>
          simp <;> omega

/-- C3 (counterexample): with `half_open_max_calls = 1`, the `can_execute`
call that performs the OPEN → HALF_OPEN transition returns true *without*
incrementing `half_open_calls` (it stays 0), and the next call returns true
as well — two true-returning calls since entering HALF_OPEN, exceeding the
claimed total of `half_open_max_calls = 1`, with the first true call not
incrementing the counter. -/
theorem half_open_allowance_counterexample :
    (let cb0 : CircuitBreaker :=
      { failure_threshold := 5, recovery_timeout := 5, half_open_max_calls := 1,
        success_threshold := 2, state := .OPEN, failure_count := 5,
        success_count := 0, last_failure_time := some 0, half_open_calls := 0 }
     let r1 := can_execute cb0 10
     let r2 := can_execute r1.2 10
     r1.1 = true ∧ r1.2.state = .HALF_OPEN ∧ r1.2.half_open_calls = 0 ∧
       r2.1 = true ∧ r2.2.half_open_calls = 1) := by
  have h5 : ((5 : ℚ) ≤ 10) := by norm_num
  refine ⟨?_, ?_, ?_, ?_, ?_⟩ <;> simp [can_execute, h5]

/-- C3 (amended): the transition call that enters HALF_OPEN returns true but
does not increment `half_open_calls`; counting from the first call made *in*
the HALF_OPEN state, every `can_execute` call that returns true increments
`half_open_calls`, at most `half_open_max_calls - half_open_calls` further
calls return true (so at most `half_open_max_calls` in-state trues after the
transition reset the counter to 0, i.e. `half_open_max_calls + 1` trues in
total counting the entering call), and once the allowance is used every
further call returns false (the count of trues stops growing). -/
theorem half_open_allowance (cb : CircuitBreaker) (now : ℚ) (n : Nat)
    (hst : cb.state = .HALF_OPEN) :
    ((can_execute cb now).1 = true →
        (can_execute cb now).2.half_open_calls = cb.half_open_calls + 1) ∧
    (iterate_can_execute cb now n).1 =
      min n (cb.half_open_max_calls - cb.half_open_calls) ∧
    (iterate_can_execute cb now n).2.state = .HALF_OPEN := by
  have h := iterate_can_execute_half_open now n cb hst
  refine ⟨?_, h.1, h.2.1⟩
  intro htrue
  by_cases hlt : cb.half_open_calls < cb.half_open_max_calls
  · simp [can_execute, hst, hlt]
  · simp [can_execute, hst, hlt] at htrue

/-! ### C4 — the CLOSED → OPEN → HALF_OPEN → CLOSED lifecycle -/

theorem record_failures_closed :
    ∀ (ts : List ℚ) (cb : CircuitBreaker), cb.state = .CLOSED →
      cb.failure_count + ts.length < cb.failure_threshold →
      (record_failures cb ts).state = .CLOSED ∧
      (record_failures cb ts).failure_count = cb.failure_count + ts.length := by
  intro ts
  induction ts with
  | nil =>
      intro cb h _
      exact ⟨by simpa [record_failures] using h, by simp [record_failures]⟩
  | cons t ts ih =>
      intro cb h hlt
      have hstep : record_failure cb t =
          { cb with failure_count := cb.failure_count + 1, last_failure_time := some t } := by
        have hle : ¬ (cb.failure_count + 1 ≥ cb.failure_threshold) := by
          simp at hlt ⊢; omega
        simp [record_failure, h, hle]
      have ih2 := ih { cb with failure_count := cb.failure_count + 1,
                               last_failure_time := some t } (by simp [h])
        (by simp at hlt ⊢; omega)
      simp only [record_failures, hstep]
      refine ⟨ih2.1, ?_⟩
      simp only [ih2.2]
      simp
      omega

theorem record_failures_to_open :
    ∀ (ts : List ℚ) (cb : CircuitBreaker), cb.state = .CLOSED →
      cb.failure_count + ts.length = cb.failure_threshold → ts ≠ [] →
      (record_failures cb ts).state = .OPEN ∧
      (record_failures cb ts).recovery_timeout = cb.recovery_timeout ∧
      (record_failures cb ts).success_count = cb.success_count ∧
      (record_failures cb ts).success_threshold = cb.success_threshold ∧
      (∀ tl, ts.getLast? = some tl →
        (record_failures cb ts).last_failure_time = some tl) := by
  intro ts
  induction ts with
  | nil => intro cb _ _ hne; exact absurd rfl hne
  | cons t ts ih =>
      intro cb h hsum _
      match ts, ih with
      | [], _ =>
          have hge : cb.failure_count + 1 ≥ cb.failure_threshold := by
            simp at hsum; omega
          have hstep : record_failure cb t =
              { cb with failure_count := cb.failure_count + 1,
                        last_failure_time := some t, state := .OPEN } := by
            simp [record_failure, h, hge]
          simp [record_failures, hstep]
      | t' :: ts', ih =>
          have hlt : ¬ (cb.failure_count + 1 ≥ cb.failure_threshold) := by
            simp at hsum ⊢; omega
          have hstep : record_failure cb t =
              { cb with failure_count := cb.failure_count + 1,
                        last_failure_time := some t } := by
            simp [record_failure, h, hlt]
          have ih2 := ih { cb with failure_count := cb.failure_count + 1,
                                   last_failure_time := some t }
            (by simp [h]) (by simp at hsum ⊢; omega) (by simp)
          simp only [record_failures, hstep]
          refine ⟨ih2.1, by simpa using ih2.2.1, by simpa using ih2.2.2.1,
                  by simpa using ih2.2.2.2.1, ?_⟩
          intro tl hl
          rw [List.getLast?_cons_cons] at hl
          exact ih2.2.2.2.2 tl hl

theorem record_successes_close :
    ∀ (k : Nat) (cb : CircuitBreaker), cb.state = .HALF_OPEN →
      cb.success_count + k = cb.success_threshold → 1 ≤ k →
      (record_successes cb k).state = .CLOSED ∧
      (record_successes cb k).failure_count = 0 := by
  intro k
  induction k with
  | zero => intro cb _ _ hk; omega
  | succ k ih =>
      intro cb h hsum _
      by_cases hk0 : k = 0
      · subst hk0
        have hge : cb.success_count + 1 ≥ cb.success_threshold := by omega
        have hstep : record_success cb =
            { cb with success_count := 0, state := .CLOSED, failure_count := 0,
                      half_open_calls := 0 } := by
          simp [record_success, h, hge]
        simp [record_successes, hstep]
      · have hlt : ¬ (cb.success_count + 1 ≥ cb.success_threshold) := by omega
        have hstep : record_success cb =
            { cb with success_count := cb.success_count + 1 } := by
          simp [record_success, h, hlt]
        have ih2 := ih { cb with success_count := cb.success_count + 1 }
          (by simp [h]) (by simp; omega) (by omega)
        simp only [record_successes, hstep]
        exact ih2

/-- C4: for a fresh breaker, exactly `failure_threshold` consecutive
`record_failure` calls (at arbitrary times, `tl` being the last) reach OPEN
— any shorter prefix is still CLOSED; once `now - tl ≥ recovery_timeout`,
the next `can_execute` call returns true and leaves the breaker HALF_OPEN
(transition and grant in the same call); and `success_threshold` consecutive
`record_success` calls from there reach CLOSED with `failure_count = 0`. -/
theorem breaker_lifecycle (ft hmax st k : Nat) (rt now : ℚ) (ts : List ℚ) (tl : ℚ)
    (hft : 1 ≤ ft) (hst : 1 ≤ st) (hlen : ts.length = ft)
    (hlast : ts.getLast? = some tl) (hk : k < ft) (hrt : now - tl ≥ rt) :
    (record_failures (mkCircuitBreaker ft rt hmax st) (ts.take k)).state = .CLOSED ∧
    (record_failures (mkCircuitBreaker ft rt hmax st) ts).state = .OPEN ∧
    (can_execute (record_failures (mkCircuitBreaker ft rt hmax st) ts) now).1 = true ∧
    (can_execute (record_failures (mkCircuitBreaker ft rt hmax st) ts) now).2.state =
      .HALF_OPEN ∧
    (record_successes
        (can_execute (record_failures (mkCircuitBreaker ft rt hmax st) ts) now).2
        st).state = .CLOSED ∧
    (record_successes
        (can_execute (record_failures (mkCircuitBreaker ft rt hmax st) ts) now).2
        st).failure_count = 0 := by
  have hne : ts ≠ [] := by
    intro hnil
    rw [hnil] at hlen
    simp at hlen
    omega
  have h1 := record_failures_closed (ts.take k) (mkCircuitBreaker ft rt hmax st) rfl
    (by simp [mkCircuitBreaker, List.length_take, hlen]; omega)
  have h2 := record_failures_to_open ts (mkCircuitBreaker ft rt hmax st) rfl
    (by simp [mkCircuitBreaker, hlen]) hne
  have hlft := h2.2.2.2.2 tl hlast
  have hce : can_execute (record_failures (mkCircuitBreaker ft rt hmax st) ts) now =
      (true, { record_failures (mkCircuitBreaker ft rt hmax st) ts with
               state := .HALF_OPEN, half_open_calls := 0 }) := by
    have hcond : now - tl ≥
        (record_failures (mkCircuitBreaker ft rt hmax st) ts).recovery_timeout := by
      rw [h2.2.1]
      exact hrt
    simp [can_execute, h2.1, hlft, hcond]
  have hsc : ({ record_failures (mkCircuitBreaker ft rt hmax st) ts with
                state := CircuitState.HALF_OPEN,
                half_open_calls := 0 } : CircuitBreaker).success_count = 0 := by
    simpa [mkCircuitBreaker] using h2.2.2.1
  have hth : ({ record_failures (mkCircuitBreaker ft rt hmax st) ts with
                state := CircuitState.HALF_OPEN,
                half_open_calls := 0 } : CircuitBreaker).success_threshold = st := by
    simpa [mkCircuitBreaker] using h2.2.2.2.1
  have h3 := record_successes_close st
    { record_failures (mkCircuitBreaker ft rt hmax st) ts with
      state := .HALF_OPEN, half_open_calls := 0 }
    rfl (by rw [hsc, hth]; omega) hst
  refine ⟨h1.1, h2.1, ?_, ?_, ?_, ?_⟩
  · rw [hce]
  · rw [hce]
  · rw [hce]; exact h3.1
  · rw [hce]; exact h3.2

theorem breaker_lifecycle_witness :
    (1 ≤ 5 ∧ 1 ≤ 2 ∧ ([(0 : ℚ), 1, 2, 3, 4]).length = 5 ∧
      ([(0 : ℚ), 1, 2, 3, 4]).getLast? = some 4 ∧ 3 < 5 ∧ (34 : ℚ) - 4 ≥ 30) ∧
    ((record_failures (mkCircuitBreaker 5 30 3 2)
        (([(0 : ℚ), 1, 2, 3, 4]).take 3)).state = .CLOSED ∧
     (record_failures (mkCircuitBreaker 5 30 3 2) [(0 : ℚ), 1, 2, 3, 4]).state = .OPEN ∧
     (can_execute (record_failures (mkCircuitBreaker 5 30 3 2)
        [(0 : ℚ), 1, 2, 3, 4]) 34).1 = true ∧
     (can_execute (record_failures (mkCircuitBreaker 5 30 3 2)
        [(0 : ℚ), 1, 2, 3, 4]) 34).2.state = .HALF_OPEN ∧
     (record_successes (can_execute (record_failures (mkCircuitBreaker 5 30 3 2)
        [(0 : ℚ), 1, 2, 3, 4]) 34).2 2).state = .CLOSED ∧
     (record_successes (can_execute (record_failures (mkCircuitBreaker 5 30 3 2)
        [(0 : ℚ), 1, 2, 3, 4]) 34).2 2).failure_count = 0) :=
  ⟨⟨by decide, by decide, by decide, by decide, by decide, by norm_num⟩,
   breaker_lifecycle 5 3 2 3 30 34 [0, 1, 2, 3, 4] 4 (by decide) (by decide)
     (by decide) (by decide) (by decide) (by norm_num)⟩

theorem half_open_allowance_witness :
    (({ state := .HALF_OPEN, half_open_calls := 0 } : CircuitBreaker).state =
        CircuitState.HALF_OPEN) ∧
    (((can_execute { state := .HALF_OPEN, half_open_calls := 0 } 0).1 = true →
        (can_execute { state := .HALF_OPEN, half_open_calls := 0 } 0).2.half_open_calls =
          ({ state := .HALF_OPEN, half_open_calls := 0 } : CircuitBreaker).half_open_calls + 1) ∧
      (iterate_can_execute { state := .HALF_OPEN, half_open_calls := 0 } 0 5).1 =
        min 5 (({ state := .HALF_OPEN, half_open_calls := 0 } : CircuitBreaker).half_open_max_calls -
               ({ state := .HALF_OPEN, half_open_calls := 0 } : CircuitBreaker).half_open_calls) ∧
      (iterate_can_execute { state := .HALF_OPEN, half_open_calls := 0 } 0 5).2.state =
        CircuitState.HALF_OPEN) :=
  ⟨rfl, half_open_allowance { state := .HALF_OPEN, half_open_calls := 0 } 0 5 rfl⟩

/-! ### C10 — re-registration replaces the breaker -/

/-- C10: when circuit breakers are enabled, `register_agent` stores a
brand-new default `CircuitBreaker()` under the agent's id — whatever
breaker (state, counters, history) was there before, the breaker found
immediately afterwards is CLOSED with `failure_count`, `success_count` and
`half_open_calls` all 0. -/
theorem register_agent_resets_breaker (o : Orchestrator) (agent_id : AgentID)
    (capabilities : List String) (h : o.enable_circuit_breaker = true) :
    dictGet agent_id (register_agent o agent_id capabilities).circuit_breakers =
      some ({} : CircuitBreaker) ∧
    ({} : CircuitBreaker).state = .CLOSED ∧
    ({} : CircuitBreaker).failure_count = 0 ∧
    ({} : CircuitBreaker).success_count = 0 ∧
    ({} : CircuitBreaker).half_open_calls = 0 := by
  refine ⟨?_, rfl, rfl, rfl, rfl⟩
  simp [register_agent, h, dictGet_insert_self]

theorem register_agent_resets_breaker_witness :
    (({ circuit_breakers :=
          [("a1", { state := .OPEN, failure_count := 7,
                    last_failure_time := some 1 })] } :
        Orchestrator).enable_circuit_breaker = true) ∧
    (dictGet "a1" (register_agent
        { circuit_breakers :=
            [("a1", { state := .OPEN, failure_count := 7,
                      last_failure_time := some 1 })] }
        "a1" ["x"]).circuit_breakers = some ({} : CircuitBreaker) ∧
     ({} : CircuitBreaker).state = .CLOSED ∧
     ({} : CircuitBreaker).failure_count = 0 ∧
     ({} : CircuitBreaker).success_count = 0 ∧
     ({} : CircuitBreaker).half_open_calls = 0) :=
  ⟨rfl, register_agent_resets_breaker
      { circuit_breakers :=
          [("a1", { state := .OPEN, failure_count := 7,
                    last_failure_time := some 1 })] }
      "a1" ["x"] rfl⟩

/-! ### C2 — `find_agents_for_task` purity and ordering -/

/-- C2 (counterexample): `find_agents_for_task` is not pure — with one
matching agent whose breaker is HALF_OPEN at `half_open_calls = 2` of 3,
the first call returns the agent (and bumps the counter to 3, mutating the
breaker dict), and an identical second call on the resulting state returns
the empty list. -/
theorem find_agents_purity_counterexample :
    (let o : Orchestrator :=
      { agent_capabilities := [("a1", ["x"])], agent_health := [("a1", true)],
        circuit_breakers :=
          [("a1", { state := .HALF_OPEN, half_open_calls := 2 })] }
     let r1 := find_agents_for_task o ["x"] 0
     let r2 := find_agents_for_task { o with circuit_breakers := r1.2 } ["x"] 0
     r1.1 = ["a1"] ∧ r2.1 = [] ∧ r1.2 ≠ o.circuit_breakers) := by
  refine ⟨?_, ?_, ?_⟩ <;> decide

theorem find_agents_go_sublist (health : List (AgentID × Bool)) (enable : Bool)
    (req : List String) (now : ℚ) :
    ∀ (caps : List (AgentID × List String)) (cbs : List (AgentID × CircuitBreaker)),
      List.Sublist (find_agents_go health enable req now cbs caps).1
        (caps.map Prod.fst) := by
  intro caps
  induction caps with
  | nil => intro cbs; simp [find_agents_go]
  | cons p rest ih =>
      intro cbs
      obtain ⟨agent_id, capabilities⟩ := p
      simp only [find_agents_go, List.map_cons]
      split
      · exact (ih cbs).cons agent_id
      · split
        · exact (ih cbs).cons agent_id
        · split
          · split
            · split
              · exact (ih _).cons₂ agent_id
              · exact (ih _).cons agent_id
            · exact (ih cbs).cons₂ agent_id
          · exact (ih cbs).cons₂ agent_id

theorem find_agents_go_closed (health : List (AgentID × Bool)) (enable : Bool)
    (req : List String) (now : ℚ) :
    ∀ (caps : List (AgentID × List String)) (cbs : List (AgentID × CircuitBreaker)),
      (∀ p ∈ cbs, (p : AgentID × CircuitBreaker).2.state = .CLOSED) →
      (find_agents_go health enable req now cbs caps).2 = cbs := by
  intro caps
  induction caps with
  | nil => intro cbs _; simp [find_agents_go]
  | cons p rest ih =>
      intro cbs hcb
      obtain ⟨agent_id, capabilities⟩ := p
      simp only [find_agents_go]
      split
      · exact ih cbs hcb
      · split
        · exact ih cbs hcb
        · split
          · split
            case _ cb hcb2 =>
              have hclosed : cb.state = .CLOSED := hcb _ (dictGet_mem hcb2)
              have hce := can_execute_closed cb now hclosed
              have hins : dictInsert agent_id (can_execute cb now).2 cbs = cbs := by
                rw [hce]
                exact dictInsert_get_self agent_id cb cbs hcb2
              have htrue : (can_execute cb now).1 = true := by rw [hce]
              simp only [htrue, if_true, hins]
              exact ih cbs hcb
            case _ => exact ih cbs hcb
          · exact ih cbs hcb

/-- C2 (amended): the candidate list respects registration order (it is a
sublist of the `_agent_capabilities` insertion order, which duplicate
re-registration preserves), and provided every registered breaker is in the
CLOSED state the call leaves the breaker registry unchanged, so an
immediately repeated call returns the very same ordered list.  (Without
that proviso `can_execute` may mutate breakers — see the counterexample —
so the call is not pure in general.) -/
theorem find_agents_order_and_closed_purity (o : Orchestrator)
    (req : List String) (now : ℚ)
    (hcb : ∀ p ∈ o.circuit_breakers, (p : AgentID × CircuitBreaker).2.state = .CLOSED) :
    List.Sublist (find_agents_for_task o req now).1 (dictKeys o.agent_capabilities) ∧
    (find_agents_for_task o req now).2 = o.circuit_breakers ∧
    (find_agents_for_task { o with circuit_breakers := (find_agents_for_task o req now).2 }
        req now).1 = (find_agents_for_task o req now).1 := by
  have hsub := find_agents_go_sublist o.agent_health o.enable_circuit_breaker req now
    o.agent_capabilities o.circuit_breakers
  have hpure := find_agents_go_closed o.agent_health o.enable_circuit_breaker req now
    o.agent_capabilities o.circuit_breakers hcb
  refine ⟨hsub, hpure, ?_⟩
  simp [find_agents_for_task, hpure]

theorem find_agents_order_and_closed_purity_witness :
    (∀ p ∈ twoAgentOrch.circuit_breakers,
      (p : AgentID × CircuitBreaker).2.state = .CLOSED) ∧
    (List.Sublist (find_agents_for_task twoAgentOrch ["x"] 0).1
        (dictKeys twoAgentOrch.agent_capabilities) ∧
     (find_agents_for_task twoAgentOrch ["x"] 0).2 = twoAgentOrch.circuit_breakers ∧
     (find_agents_for_task
        { twoAgentOrch with
          circuit_breakers := (find_agents_for_task twoAgentOrch ["x"] 0).2 }
        ["x"] 0).1 = (find_agents_for_task twoAgentOrch ["x"] 0).1) :=
  ⟨by decide, find_agents_order_and_closed_purity twoAgentOrch ["x"] 0 (by decide)⟩

/-! ### C8 — majority consensus is strict -/

/-- C8: with `consensus_type = "majority"`, `propose` reports consensus
exactly when the yes votes cast during the window (by members, counted at
tally time) are strictly greater than half the member count — the source's
`yes_votes > len(members) / 2` over true division is equivalent to
`2 * yes_votes > members` over the integers, so ties fail. -/
theorem propose_majority (s : SwarmCoordinator) (incoming : List (AgentID × Bool))
    (h : s.config.consensus_type = "majority") :
    ((propose s incoming).consensus = true ↔
      2 * (propose s incoming).yes_votes > (propose s incoming).total_members) := by
  have hne : ¬ (("majority" : String) = "unanimous") := by decide
  simp only [propose, h, if_neg hne, if_pos rfl, decide_eq_true_eq, gt_iff_lt]
  rw [div_lt_iff₀ (by norm_num : (0 : ℚ) < 2), mul_comm]
  exact_mod_cast Iff.rfl

theorem propose_majority_witness :
    (threeMemberSwarm.config.consensus_type = "majority") ∧
    (propose threeMemberSwarm [("m0", true), ("m1", true)]).consensus = true ∧
    (propose threeMemberSwarm [("m0", true), ("m1", false), ("m2", false)]).consensus =
      false :=
  ⟨rfl,
   (propose_majority threeMemberSwarm [("m0", true), ("m1", true)] rfl).mpr (by decide),
   Bool.eq_false_iff.mpr (fun hc =>
     absurd ((propose_majority threeMemberSwarm
       [("m0", true), ("m1", false), ("m2", false)] rfl).mp hc) (by decide))⟩

/-! ### C9 — round-robin distribution and the empty swarm -/

theorem dictKeys_bump_task_count (members : List (AgentID × SwarmMember))
    (aid : AgentID) : dictKeys (bump_task_count members aid) = dictKeys members := by
  induction members with
  | nil => rfl
  | cons p rest ih =>
      by_cases h : p.1 = aid <;>
        simp [bump_task_count, dictKeys, h] at ih ⊢ <;> simpa using ih

theorem distribute_task_rr_step (s : SwarmCoordinator) (t : Task)
    (hstrat : s.config.allocation_strategy = "round_robin")
    (hne : s.members.isEmpty = false) :
    (distribute_task s t).1 =
      some ((dictKeys s.members).getD (s.round_robin_index % s.members.length) "") ∧
    dictKeys (distribute_task s t).2.members = dictKeys s.members ∧
    (distribute_task s t).2.round_robin_index = s.round_robin_index + 1 ∧
    (distribute_task s t).2.config = s.config := by
  have hc1 : ¬ (s.members.isEmpty = true) := by simp [hne]
  simp only [distribute_task, if_neg hc1, hstrat, eq_self_iff_true, if_true]
  split
  · exact ⟨rfl, dictKeys_bump_task_count _ _, rfl, rfl⟩
  · exact ⟨rfl, rfl, rfl, rfl⟩

/-- C9: `distribute_task` returns `none` whenever the swarm has no members
(whatever the strategy), and under the `round_robin` strategy successive
calls walk the member-id list cyclically from the current index — the n-th
call returns member `(start + n) mod memberCount`, so with three members
four calls yield `m0, m1, m2, m0`. -/
theorem distribute_task_spec (s : SwarmCoordinator) (tasks : List Task)
    (hstrat : s.config.allocation_strategy = "round_robin")
    (hne : s.members ≠ []) :
    (∀ (s2 : SwarmCoordinator) (t2 : Task), s2.members = [] →
        (distribute_task s2 t2).1 = none) ∧
    (distribute_seq s tasks).1 =
      (List.range tasks.length).map (fun n =>
        some ((dictKeys s.members).getD
          ((s.round_robin_index + n) % s.members.length) "")) := by
  constructor
  · intro s2 t2 h2
    simp [distribute_task, h2]
  · induction tasks generalizing s with
    | nil => simp [distribute_seq]
    | cons t ts ih =>
        have hne2 : s.members.isEmpty = false := by
          simpa [List.isEmpty_iff] using hne
        have hstep := distribute_task_rr_step s t hstrat hne2
        have hlen : (distribute_task s t).2.members.length = s.members.length := by
          have := congrArg List.length hstep.2.1
          simpa [dictKeys] using this
        have hne3 : (distribute_task s t).2.members ≠ [] := by
          intro hnil
          rw [hnil] at hlen
          simp at hlen
          exact hne (List.length_eq_zero.mp hlen.symm)
        have ih2 := ih (distribute_task s t).2
          (by rw [hstep.2.2.2]; exact hstrat) hne3
        simp only [distribute_seq, hstep.1, ih2, hstep.2.1, hstep.2.2.1, hlen,
          List.length_cons, List.range_succ_eq_map, List.map_cons, List.map_map]
        congr 1
        apply List.map_congr_left
        intro a ha
        have hadd : s.round_robin_index + 1 + a = s.round_robin_index + (a + 1) := by
          omega
        rw [hadd]
        rfl

theorem distribute_task_spec_witness :
    (threeMemberSwarm.config.allocation_strategy = "round_robin") ∧
    threeMemberSwarm.members ≠ [] ∧
    ((∀ (s2 : SwarmCoordinator) (t2 : Task), s2.members = [] →
        (distribute_task s2 t2).1 = none) ∧
     (distribute_seq threeMemberSwarm [taskT, taskT, taskT, taskT]).1 =
       [some "m0", some "m1", some "m2", some "m0"]) :=
  ⟨rfl, by simp [threeMemberSwarm],
   ⟨(distribute_task_spec threeMemberSwarm [taskT, taskT, taskT, taskT] rfl
       (by simp [threeMemberSwarm])).1,
    ((distribute_task_spec threeMemberSwarm [taskT, taskT, taskT, taskT] rfl
       (by simp [threeMemberSwarm])).2).trans (by decide)⟩⟩

/-! ### C7 — per-task dispatch: sequential fallback across candidates -/

theorem try_candidates_ok (behavior : AgentBehavior) (tid : String) (now dur : ℚ)
    (a : AgentID) (rest : List AgentID) (cbs : List (AgentID × CircuitBreaker))
    (cb : CircuitBreaker) (c : Bool) (hget : dictGet a cbs = some cb)
    (hclosed : cb.state = .CLOSED) (hbeh : behavior a tid = .ok c) :
    try_candidates behavior tid now dur (a :: rest) cbs =
      (some { task_id := tid, success := c, duration_ms := dur },
       dictInsert a (record_success cb) cbs) := by
  simp [try_candidates, hget, can_execute_closed cb now hclosed, hbeh]

theorem try_candidates_exc (behavior : AgentBehavior) (tid : String) (now dur : ℚ)
    (a : AgentID) (rest : List AgentID) (cbs : List (AgentID × CircuitBreaker))
    (cb : CircuitBreaker) (hget : dictGet a cbs = some cb)
    (hclosed : cb.state = .CLOSED) (hbeh : behavior a tid = .exc) :
    try_candidates behavior tid now dur (a :: rest) cbs =
      try_candidates behavior tid now dur rest
        (dictInsert a (record_failure cb now) cbs) := by
  simp [try_candidates, hget, can_execute_closed cb now hclosed, hbeh]

theorem try_candidates_all_exc (behavior : AgentBehavior) (tid : String)
    (now dur : ℚ) :
    ∀ (cands : List AgentID) (cbs : List (AgentID × CircuitBreaker)), cands.Nodup →
      (∀ a ∈ cands, ∀ cb, dictGet a cbs = some cb → cb.state = .CLOSED) →
      (∀ a ∈ cands, behavior a tid = .exc) →
      (try_candidates behavior tid now dur cands cbs).1 = none := by
  intro cands
  induction cands with
  | nil => intro cbs _ _ _; simp [try_candidates]
  | cons a rest ih =>
      intro cbs hnd hcb hbeh
      have hbe : behavior a tid = .exc := hbeh a (by simp)
      match hget : dictGet a cbs with
      | some cb =>
          have hclosed := hcb a (by simp) cb hget
          rw [try_candidates_exc behavior tid now dur a rest cbs cb hget hclosed hbe]
          apply ih
          · exact (List.nodup_cons.mp hnd).2
          · intro b hb cb2 hget2
            have hba : b ≠ a := by
              intro hcontra
              subst hcontra
              exact (List.nodup_cons.mp hnd).1 hb
            rw [dictGet_insert_ne a b _ cbs hba] at hget2
            exact hcb b (List.mem_cons_of_mem a hb) cb2 hget2
          · intro b hb
            exact hbeh b (List.mem_cons_of_mem a hb)
      | none =>
          have hstep : try_candidates behavior tid now dur (a :: rest) cbs =
              try_candidates behavior tid now dur rest cbs := by
            simp [try_candidates, hget, hbe]
          rw [hstep]
          apply ih
          · exact (List.nodup_cons.mp hnd).2
          · intro b hb cb2 hget2
            exact hcb b (List.mem_cons_of_mem a hb) cb2 hget2
          · intro b hb
            exact hbeh b (List.mem_cons_of_mem a hb)

/-- C7: in `_execute_task`'s fallback loop, candidates are tried strictly in
list order: a candidate whose (CLOSED) breaker allows and whose invocation
returns records a success on its own breaker and the loop returns its result
immediately (`success = (status == COMPLETED)`); a candidate whose
invocation raises or times out records a failure on its own breaker and the
loop moves to the next candidate; and when every candidate raises, the
returned result is a failure with error `All agents failed to execute task`
and `retry_count` equal to the number of candidates. -/
theorem execute_task_dispatch (behavior : AgentBehavior) (now dur : ℚ) :
    (∀ (tid : String) (a : AgentID) (rest : List AgentID)
        (cbs : List (AgentID × CircuitBreaker)) (cb : CircuitBreaker) (c : Bool),
        dictGet a cbs = some cb → cb.state = .CLOSED → behavior a tid = .ok c →
        try_candidates behavior tid now dur (a :: rest) cbs =
          (some { task_id := tid, success := c, duration_ms := dur },
           dictInsert a (record_success cb) cbs)) ∧
    (∀ (tid : String) (a : AgentID) (rest : List AgentID)
        (cbs : List (AgentID × CircuitBreaker)) (cb : CircuitBreaker),
        dictGet a cbs = some cb → cb.state = .CLOSED → behavior a tid = .exc →
        try_candidates behavior tid now dur (a :: rest) cbs =
          try_candidates behavior tid now dur rest
            (dictInsert a (record_failure cb now) cbs)) ∧
    (∀ (o : Orchestrator) (task : Task),
        (dictKeys o.agent_capabilities).Nodup →
        (∀ p ∈ o.circuit_breakers,
          (p : AgentID × CircuitBreaker).2.state = .CLOSED) →
        (∀ a ∈ (find_agents_for_task o
            (task.required_capabilities.map (fun c => c.name)) now).1,
          behavior a task.id = .exc) →
        (find_agents_for_task o
            (task.required_capabilities.map (fun c => c.name)) now).1 ≠ [] →
        (execute_task_m o behavior task now dur).1 =
          { task_id := task.id, success := false,
            error := some "All agents failed to execute task",
            duration_ms := dur,
            retry_count := (find_agents_for_task o
              (task.required_capabilities.map (fun c => c.name)) now).1.length }) := by
  refine ⟨?_, ?_, ?_⟩
  · intro tid a rest cbs cb c hget hclosed hbeh
    exact try_candidates_ok behavior tid now dur a rest cbs cb c hget hclosed hbeh
  · intro tid a rest cbs cb hget hclosed hbeh
    exact try_candidates_exc behavior tid now dur a rest cbs cb hget hclosed hbeh
  · intro o task hnd hcb hall hne
    have hpure := find_agents_go_closed o.agent_health o.enable_circuit_breaker
      (task.required_capabilities.map (fun c => c.name)) now
      o.agent_capabilities o.circuit_breakers hcb
    have hsub := find_agents_go_sublist o.agent_health o.enable_circuit_breaker
      (task.required_capabilities.map (fun c => c.name)) now
      o.agent_capabilities o.circuit_breakers
    have hcnd : (find_agents_for_task o
        (task.required_capabilities.map (fun c => c.name)) now).1.Nodup :=
      List.Nodup.sublist hsub hnd
    have hnone := try_candidates_all_exc behavior task.id now dur
      (find_agents_for_task o
        (task.required_capabilities.map (fun c => c.name)) now).1
      (find_agents_for_task o
        (task.required_capabilities.map (fun c => c.name)) now).2
      hcnd
      (by
        intro b hb cb2 hget2
        rw [show (find_agents_for_task o
            (task.required_capabilities.map (fun c => c.name)) now).2 =
            o.circuit_breakers from hpure] at hget2
        exact hcb _ (dictGet_mem hget2))
      hall
    rcases htc : try_candidates behavior task.id now dur
        (find_agents_for_task o
          (task.required_capabilities.map (fun c => c.name)) now).1
        (find_agents_for_task o
          (task.required_capabilities.map (fun c => c.name)) now).2 with ⟨r1, r2⟩
    rw [htc] at hnone
    simp only at hnone
    subst hnone
    have hie : (find_agents_for_task o
        (task.required_capabilities.map (fun c => c.name)) now).1.isEmpty = false := by
      simpa [List.isEmpty_iff] using hne
    simp [execute_task_m, hie, htc]

theorem execute_task_dispatch_witness :
    ((dictKeys twoAgentOrch.agent_capabilities).Nodup ∧
     (∀ p ∈ twoAgentOrch.circuit_breakers,
        (p : AgentID × CircuitBreaker).2.state = .CLOSED) ∧
     (∀ a ∈ (find_agents_for_task twoAgentOrch
          (taskX7.required_capabilities.map (fun c => c.name)) 0).1,
        behaviorExc a taskX7.id = .exc) ∧
     (find_agents_for_task twoAgentOrch
          (taskX7.required_capabilities.map (fun c => c.name)) 0).1 ≠ []) ∧
    (execute_task_m twoAgentOrch behaviorExc taskX7 0 0).1 =
      { task_id := "t7", success := false,
        error := some "All agents failed to execute task",
        duration_ms := 0, retry_count := 2 } :=
  ⟨⟨by decide, by decide, by decide, by decide⟩,
   ((execute_task_dispatch behaviorExc 0 0).2.2 twoAgentOrch taskX7
      (by decide) (by decide) (by decide) (by decide)).trans (by decide)⟩

/-! ### The scheduling loop: progress and coverage lemmas -/

theorem insertUnique_eq_cons (l : List String) (x : String) (h : x ∉ l) :
    insertUnique l x = x :: l := by
  have hc : l.contains x = false := by simpa using h
  simp [insertUnique, hc, h]

theorem insertUnique_eq_self (l : List String) (x : String) (h : x ∈ l) :
    insertUnique l x = l := by
  have hc : l.contains x = true := by simpa using h
  simp [insertUnique, hc, h]

theorem mem_insertUnique (l : List String) (x y : String) :
    y ∈ insertUnique l x ↔ y = x ∨ y ∈ l := by
  by_cases h : x ∈ l
  · rw [insertUnique_eq_self l x h]
    constructor
    · exact Or.inr
    · rintro (rfl | hy)
      · exact h
      · exact hy
  · rw [insertUnique_eq_cons l x h]
    exact List.mem_cons

theorem length_insertUnique_not_mem (l : List String) (x : String) (h : x ∉ l) :
    (insertUnique l x).length = l.length + 1 := by
  rw [insertUnique_eq_cons l x h]
  rfl

theorem process_one_isTerminal_iff (dependents : List (String × List String))
    (st : ExecState) (t : Task) (res : ExecutionResult) (i : String) :
    isTerminal (process_one dependents st t res) i ↔ i = t.id ∨ isTerminal st i := by
  unfold isTerminal process_one
  cases hs : res.success <;> simp [hs, mem_insertUnique] <;> tauto

theorem process_one_termCount (dependents : List (String × List String))
    (st : ExecState) (t : Task) (res : ExecutionResult)
    (h : ¬ isTerminal st t.id) :
    termCount (process_one dependents st t res) = termCount st + 1 := by
  unfold isTerminal at h
  push_neg at h
  unfold termCount process_one
  cases hs : res.success <;>
    simp [hs, length_insertUnique_not_mem _ _ h.1, length_insertUnique_not_mem _ _ h.2] <;>
    omega

theorem process_one_inv (tasks : List Task) (dependents : List (String × List String))
    (st : ExecState) (t : Task) (res : ExecutionResult)
    (hinv : loop_inv tasks st) (hid : t.id ∈ tasks.map Task.id)
    (hun : ¬ isTerminal st t.id) :
    loop_inv tasks (process_one dependents st t res) := by
  unfold isTerminal at hun
  push_neg at hun
  obtain ⟨hnd, hmem, hres⟩ := hinv
  refine ⟨?_, ?_, ?_⟩
  · unfold process_one
    cases hs : res.success <;> simp only [hs, Bool.false_eq_true, if_true, if_false]
    · rw [insertUnique_eq_cons _ _ hun.2]
      rw [List.nodup_middle]
      simp only [List.nodup_cons]
      refine ⟨?_, hnd⟩
      simp only [List.mem_append]
      rintro (hc | hf)
      · exact hun.1 hc
      · exact hun.2 hf
    · rw [insertUnique_eq_cons _ _ hun.1]
      simp only [List.cons_append, List.nodup_cons]
      refine ⟨?_, hnd⟩
      simp only [List.mem_append]
      rintro (hc | hf)
      · exact hun.1 hc
      · exact hun.2 hf
  · intro i hi
    unfold process_one at hi
    cases hs : res.success <;>
      rw [hs] at hi <;>
      simp only [Bool.false_eq_true, if_true, if_false, List.mem_append,
        mem_insertUnique] at hi
    · rcases hi with hc | (rfl | hf)
      · exact hmem i (by simp [hc])
      · exact hid
      · exact hmem i (by simp [hf])
    · rcases hi with (rfl | hc) | hf
      · exact hid
      · exact hmem i (by simp [hc])
      · exact hmem i (by simp [hf])
  · intro i hi
    rcases (process_one_isTerminal_iff dependents st t res i).mp hi with rfl | hterm
    · unfold process_one
      simp [dictGet_insert_self]
    · unfold process_one
      by_cases he : i = t.id
      · subst he
        simp [dictGet_insert_self]
      · simp only
        rw [dictGet_insert_ne _ _ _ _ he]
        exact hres i hterm

theorem mark_one_isTerminal_iff (st : ExecState) (t : Task) (i : String) :
    isTerminal (mark_one st t) i ↔ i = t.id ∨ isTerminal st i := by
  unfold isTerminal mark_one
  simp only [mem_insertUnique]
  tauto

theorem foldl_mark_one_props :
    ∀ (l : List Task) (st : ExecState),
      (∀ i, isTerminal st i → (dictGet i st.results).isSome = true) →
      ((∀ i, isTerminal st i → isTerminal (l.foldl mark_one st) i) ∧
       (∀ t ∈ l, isTerminal (l.foldl mark_one st) t.id) ∧
       (∀ i, isTerminal (l.foldl mark_one st) i →
          (dictGet i (l.foldl mark_one st).results).isSome = true)) := by
  intro l
  induction l with
  | nil => intro st hres; exact ⟨fun i hi => hi, by simp, hres⟩
  | cons t rest ih =>
      intro st hres
      have hres1 : ∀ i, isTerminal (mark_one st t) i →
          (dictGet i (mark_one st t).results).isSome = true := by
        intro i hi
        by_cases he : i = t.id
        · subst he
          unfold mark_one
          simp [dictGet_insert_self]
        · rcases (mark_one_isTerminal_iff st t i).mp hi with rfl | hterm
          · exact absurd rfl he
          · unfold mark_one
            simp only
            rw [dictGet_insert_ne _ _ _ _ he]
            exact hres i hterm
      have ih2 := ih (mark_one st t) hres1
      refine ⟨?_, ?_, ih2.2.2⟩
      · intro i hi
        simp only [List.foldl_cons]
        exact ih2.1 i ((mark_one_isTerminal_iff st t i).mpr (Or.inr hi))
      · intro u hu
        simp only [List.foldl_cons]
        rcases List.mem_cons.mp hu with rfl | hrest
        · exact ih2.1 u.id ((mark_one_isTerminal_iff st u u.id).mpr (Or.inl rfl))
        · exact ih2.2.1 u hrest

theorem mark_deadlock_covers (tasks : List Task) (st : ExecState)
    (hres : ∀ i, isTerminal st i → (dictGet i st.results).isSome = true) :
    (∀ t ∈ tasks, isTerminal (mark_deadlock tasks st) t.id) ∧
    (∀ i, isTerminal (mark_deadlock tasks st) i →
      (dictGet i (mark_deadlock tasks st).results).isSome = true) := by
  have hf := foldl_mark_one_props
    (tasks.filter (fun t => ¬ st.completed.contains t.id ∧ ¬ st.failed.contains t.id))
    st hres
  refine ⟨?_, hf.2.2⟩
  intro t ht
  by_cases hterm : isTerminal st t.id
  · exact hf.1 t.id hterm
  · apply hf.2.1 t
    rw [List.mem_filter]
    refine ⟨ht, ?_⟩
    unfold isTerminal at hterm
    push_neg at hterm
    simp [hterm.1, hterm.2]

theorem run_batch_props (o : Orchestrator) (behavior : AgentBehavior)
    (dependents : List (String × List String)) (now dur : ℚ) (tasks : List Task) :
    ∀ (batch : List Task) (st : ExecState),
      (batch.map Task.id).Nodup →
      (∀ t ∈ batch, ¬ isTerminal st t.id) →
      (∀ t ∈ batch, t.id ∈ tasks.map Task.id) →
      loop_inv tasks st →
      loop_inv tasks (run_batch o behavior dependents now dur batch st) ∧
      termCount (run_batch o behavior dependents now dur batch st) =
        termCount st + batch.length ∧
      (∀ i, isTerminal st i →
        isTerminal (run_batch o behavior dependents now dur batch st) i) := by
  intro batch
  induction batch with
  | nil => intro st _ _ _ hinv; exact ⟨hinv, rfl, fun i hi => hi⟩
  | cons t rest ih =>
      intro st hnd hun hid hinv
      simp only [List.map_cons, List.nodup_cons] at hnd
      have hunt : ¬ isTerminal st t.id := hun t (by simp)
      simp only [run_batch]
      set r := execute_task_m { o with circuit_breakers := st.cbs } behavior t now dur
        with hr
      set st1 := process_one dependents { st with cbs := r.2 } t r.1 with hst1
      have hterm1 : ∀ i, isTerminal st1 i ↔ i = t.id ∨ isTerminal st i := by
        intro i
        exact process_one_isTerminal_iff dependents { st with cbs := r.2 } t r.1 i
      have hinv1 : loop_inv tasks st1 :=
        process_one_inv tasks dependents { st with cbs := r.2 } t r.1 hinv
          (hid t (by simp)) hunt
      have hcount1 : termCount st1 = termCount st + 1 :=
        process_one_termCount dependents { st with cbs := r.2 } t r.1 hunt
      have hih := ih st1 hnd.2
        (by
          intro u hu hterm
          rcases (hterm1 u.id).mp hterm with he | hterm2
          · exact hnd.1 (he ▸ List.mem_map_of_mem Task.id hu)
          · exact hun u (List.mem_cons_of_mem t hu) hterm2)
        (fun u hu => hid u (List.mem_cons_of_mem t hu)) hinv1
      refine ⟨hih.1, ?_, ?_⟩
      · rw [hih.2.1, hcount1]
        simp
        omega
      · intro i hi
        exact hih.2.2 i ((hterm1 i).mpr (Or.inr hi))

theorem ready_tasks_not_terminal (tasks : List Task) (st : ExecState) :
    ∀ t ∈ ready_tasks tasks st, ¬ isTerminal st t.id := by
  intro t ht
  rw [ready_tasks, List.mem_filter] at ht
  have hc := ht.2
  simp only [decide_eq_true_eq] at hc
  unfold isTerminal
  push_neg
  constructor
  · intro hmem
    exact hc.1 (by simpa using hmem)
  · intro hmem
    exact hc.2.1 (by simpa using hmem)

theorem inv_full_coverage (tasks : List Task) (st : ExecState)
    (hnd : (tasks.map Task.id).Nodup) (hinv : loop_inv tasks st)
    (hge : tasks.length ≤ termCount st) :
    ∀ t ∈ tasks, isTerminal st t.id := by
  have hsub : (st.completed ++ st.failed) ⊆ tasks.map Task.id := fun i hi =>
    hinv.2.1 i hi
  have hsp : List.Subperm (st.completed ++ st.failed) (tasks.map Task.id) :=
    List.subperm_of_subset hinv.1 hsub
  have hlen2 : (tasks.map Task.id).length ≤ (st.completed ++ st.failed).length := by
    unfold termCount at hge
    simp only [List.length_append, List.length_map]
    omega
  have hperm := hsp.perm_of_length_le hlen2
  intro t ht
  have hmem : t.id ∈ tasks.map Task.id := List.mem_map_of_mem Task.id ht
  have : t.id ∈ st.completed ++ st.failed := (hperm.mem_iff).mpr hmem
  unfold isTerminal
  simpa [List.mem_append] using this

theorem execute_loop_total (o : Orchestrator) (behavior : AgentBehavior)
    (tasks : List Task) (dependents : List (String × List String)) (now dur : ℚ)
    (hmax : 1 ≤ o.max_concurrent_tasks) (hnd : (tasks.map Task.id).Nodup) :
    ∀ (fuel : Nat) (st : ExecState), tasks.length < termCount st + fuel →
      loop_inv tasks st →
      ∃ stf, execute_loop o behavior tasks dependents now dur fuel st = some stf ∧
        ∀ t ∈ tasks, isTerminal stf t.id ∧ (dictGet t.id stf.results).isSome = true := by
  intro fuel
  induction fuel with
  | zero =>
      intro st hlt hinv
      have hge : st.completed.length + st.failed.length ≥ tasks.length := by
        unfold termCount at hlt
        omega
      refine ⟨st, by rw [execute_loop, if_pos hge], ?_⟩
      intro t ht
      exact ⟨inv_full_coverage tasks st hnd hinv (by unfold termCount; omega) t ht,
             hinv.2.2 t.id (inv_full_coverage tasks st hnd hinv
               (by unfold termCount; omega) t ht)⟩
  | succ fuel ih =>
      intro st hlt hinv
      by_cases hge : st.completed.length + st.failed.length ≥ tasks.length
      · refine ⟨st, by rw [execute_loop, if_pos hge], ?_⟩
        intro t ht
        have hcov := inv_full_coverage tasks st hnd hinv
          (by unfold termCount; omega) t ht
        exact ⟨hcov, hinv.2.2 t.id hcov⟩
      · rw [execute_loop, if_neg hge]
        by_cases hready : (ready_tasks tasks st).isEmpty
        · simp only [hready, if_true]
          have hmk := mark_deadlock_covers tasks st hinv.2.2
          exact ⟨mark_deadlock tasks st, rfl, fun t ht =>
            ⟨hmk.1 t ht, hmk.2 t.id (hmk.1 t ht)⟩⟩
        · simp only [hready, Bool.false_eq_true, if_false]
          have hbatch_sub : List.Sublist
              ((ready_tasks tasks st).take o.max_concurrent_tasks) tasks :=
            List.Sublist.trans (List.take_sublist _ _) (List.filter_sublist tasks)
          have hbnd : (((ready_tasks tasks st).take o.max_concurrent_tasks).map
              Task.id).Nodup :=
            List.Nodup.sublist (hbatch_sub.map Task.id) hnd
          have hbne : (ready_tasks tasks st).take o.max_concurrent_tasks ≠ [] := by
            rw [Ne, List.take_eq_nil_iff]
            push_neg
            constructor
            · omega
            · intro hnil
              rw [hnil] at hready
              simp at hready
          have hrb := run_batch_props o behavior dependents now dur tasks
            ((ready_tasks tasks st).take o.max_concurrent_tasks) st hbnd
            (fun t ht => ready_tasks_not_terminal tasks st t
              ((List.take_sublist _ _).subset ht))
            (fun t ht => List.mem_map_of_mem Task.id (hbatch_sub.subset ht))
            hinv
          have hlen1 : 1 ≤ ((ready_tasks tasks st).take o.max_concurrent_tasks).length := by
            rcases List.exists_cons_of_ne_nil hbne with ⟨a, l, he⟩
            rw [he]
            simp
          exact ih (run_batch o behavior dependents now dur
              ((ready_tasks tasks st).take o.max_concurrent_tasks) st)
            (by rw [hrb.2.1]; omega) hrb.1

/-! ### C5 — termination and terminal coverage for valid DAG plans -/

/-- C5: for a plan whose dependency map references only existing task ids
and forms a DAG (and whose task ids are distinct, as task ids identify
tasks), `execute` terminates — the round loop returns within
`tasks.length + 1` iterations — and every task id has a terminal outcome
(COMPLETED or FAILED) with a stored `ExecutionResult`.  Proved for any
orchestrator with `max_concurrent_tasks ≥ 1` and any agent behaviour. -/
theorem execute_all_terminal (o : Orchestrator) (behavior : AgentBehavior)
    (plan : TaskPlan) (now dur : ℚ)
    (hvalid : depsValid plan.dependencies (plan.tasks.map Task.id) = true)
    (hdag : depsDAG plan.dependencies (plan.tasks.map Task.id) = true)
    (hnd : (plan.tasks.map Task.id).Nodup)
    (hmax : 1 ≤ o.max_concurrent_tasks) :
    ∃ stf, execute o behavior plan now dur = some stf ∧
      ∀ t ∈ plan.tasks, isTerminal stf t.id ∧
        (dictGet t.id stf.results).isSome = true := by
  unfold execute
  apply execute_loop_total o behavior plan.tasks (build_dependents plan.dependencies)
    now dur hmax hnd (plan.tasks.length + 1)
  · unfold termCount
    simp
  · refine ⟨by simp, by simp, ?_⟩
    intro i hi
    unfold isTerminal at hi
    simp at hi

theorem execute_all_terminal_witness :
    (depsValid planAB.dependencies (planAB.tasks.map Task.id) = true ∧
     depsDAG planAB.dependencies (planAB.tasks.map Task.id) = true ∧
     (planAB.tasks.map Task.id).Nodup ∧
     1 ≤ oneAgentOrch.max_concurrent_tasks) ∧
    (∃ stf, execute oneAgentOrch behaviorFailA planAB 0 0 = some stf ∧
      ∀ t ∈ planAB.tasks, isTerminal stf t.id ∧
        (dictGet t.id stf.results).isSome = true) :=
  ⟨⟨by decide, by decide, by decide, by decide⟩,
   execute_all_terminal oneAgentOrch behaviorFailA planAB 0 0
     (by decide) (by decide) (by decide) (by decide)⟩

/-! ### C6 — dangling dependency reference ⇒ DependencyDeadlock -/

/-- C6: for the plan with tasks `[X]` and `dependencies = {X: [missing]}`,
`execute` terminates (returns within its fuel) and X's result is a failure
with error `Dependency deadlock`; X is in the failed set. -/
theorem missing_dependency_deadlock :
    (execute emptyOrch behaviorExc planX 0 0).map
        (fun stf => (dictGet "X" stf.results, stf.failed.contains "X")) =
      some (some { task_id := "X", success := false,
                   error := some "Dependency deadlock" }, true) := by
  decide

/-! ### C1 — a failed task's dependents ARE unlocked -/

/-- C1 (counterexample): in the chain plan A → B, agent execution of A
fails (its result has `success = false` and A lands in the failed set), yet
B — A's dependent — is still unlocked, dispatched in the next round, and
completes successfully with a stored success result, instead of remaining
PENDING with the downstream subtree pruned. -/
theorem failed_dependents_pruned_counterexample :
    (execute oneAgentOrch behaviorFailA planAB 0 0).map
        (fun stf => (stf.failed.contains "A", dictGet "B" stf.results,
                     stf.completed.contains "B")) =
      some (true, some { task_id := "B", success := true, duration_ms := 0 }, true) := by
  decide

/-- C1 (amended): when a task's `ExecutionResult` is a failure, the task is
removed from each dependent's pending-dependency set exactly as it would be
on success — the unlock step of `execute` does not depend on
`result.success` at all — so the dependents of a failed task still become
ready, are dispatched in a later round, and reach a terminal outcome with a
stored result rather than staying PENDING. -/
theorem failed_dependents_unlocked
    (dependents : List (String × List String)) (st : ExecState) (t : Task)
    (res : ExecutionResult) (b : Bool) (o : Orchestrator)
    (behavior : AgentBehavior) (A B : Task) (now dur : ℚ)
    (hAB : A.id ≠ B.id) (hmax : 1 ≤ o.max_concurrent_tasks) :
    (process_one dependents st t { res with success := b }).pending_deps =
      (process_one dependents st t res).pending_deps ∧
    ∃ stf, execute o behavior
        { tasks := [A, B], dependencies := [(B.id, [A.id])] } now dur = some stf ∧
      (isTerminal stf B.id ∧ (dictGet B.id stf.results).isSome = true) := by
  constructor
  · rfl
  · have hnd : (([A, B] : List Task).map Task.id).Nodup := by
      simp [hAB]
    unfold execute
    have h := execute_loop_total o behavior [A, B]
      (build_dependents [(B.id, [A.id])]) now dur hmax hnd
      (([A, B] : List Task).length + 1)
      { results := [], completed := [], failed := [],
        pending_deps := build_pending_deps
          { tasks := [A, B], dependencies := [(B.id, [A.id])] },
        cbs := o.circuit_breakers }
      (by unfold termCount; simp)
      (by
        refine ⟨by simp, by simp, ?_⟩
        intro i hi
        unfold isTerminal at hi
        simp at hi)
    obtain ⟨stf, heq, hall⟩ := h
    exact ⟨stf, heq, hall B (by simp)⟩

theorem failed_dependents_unlocked_witness :
    (taskA.id ≠ taskB.id ∧ 1 ≤ oneAgentOrch.max_concurrent_tasks) ∧
    ((process_one [] emptyExecState taskT { resT with success := true }).pending_deps =
      (process_one [] emptyExecState taskT resT).pending_deps ∧
     ∃ stf, execute oneAgentOrch behaviorFailA
        { tasks := [taskA, taskB], dependencies := [(taskB.id, [taskA.id])] } 0 0 =
          some stf ∧
      (isTerminal stf taskB.id ∧ (dictGet taskB.id stf.results).isSome = true)) :=
  ⟨⟨by decide, by decide⟩,
   failed_dependents_unlocked [] emptyExecState taskT resT true oneAgentOrch
     behaviorFailA taskA taskB 0 0 (by decide) (by decide)⟩

end AIP

